import Mathlib

/-!
# Verification of the AgriSense cloud-sync relay (`raspberry_pi/cloud_sync.py`)

A shallow embedding of the delivery-guarantee core of the edge-to-cloud relay:
the JSON serialisation used for the durable offline queue (`json.dumps` /
`json.loads`), the SQLite-backed `OfflineQueue` (`enqueue`, `get_pending`,
`mark_sent`), the `CloudSyncService` dispatch logic (`_send_to_cloud`,
`_handle_local_message`, `_handle_cloud_message`, `_batch_sender_loop`,
`_send_batch`) and the drain loop of `_offline_queue_processor`.

Machine integers do not occur (Python integers are unbounded, timestamps are
modelled as natural numbers).  JSON numbers are modelled as integers; the
payloads exercised by the relay are treated as structured records over that
model.  Strings are restricted by a well-formedness predicate `jwf` to the
printable-ASCII range on which the model's serializer agrees with Python's
`json.dumps` (outside that range Python emits `\uXXXX` escapes, which the
model does not reproduce).
-/

namespace CloudSync

/-- JSON values as produced by Python's `json` module, with numbers
restricted to integers.  Objects are insertion-ordered association lists,
mirroring Python dicts. -/
inductive Json where
  | null : Json
  | bool : Bool → Json
  | num : Int → Json
  | str : String → Json
  | arr : List Json → Json
  | obj : List (String × Json) → Json

/-- Decimal digit character for `d < 10` (`'0'` fallback never used by
`natChars`, which only passes remainders modulo 10). -/
def digitChar : Nat → Char
  | 0 => '0' | 1 => '1' | 2 => '2' | 3 => '3' | 4 => '4'
  | 5 => '5' | 6 => '6' | 7 => '7' | 8 => '8' | 9 => '9'
  | _ => '0'

/-- Decimal rendering with explicit recursion fuel (so that the
definition unfolds by computation); `natChars` instantiates the fuel. -/
def natCharsAux : Nat → Nat → List Char
  | 0, _ => []
  | fuel + 1, n =>
    if n < 10 then [digitChar n]
    else natCharsAux fuel (n / 10) ++ [digitChar (n % 10)]

/-- Decimal rendering of a natural number, as Python's `str(n)`. -/
def natChars (n : Nat) : List Char := natCharsAux (n + 1) n

/-- Decimal rendering of an integer, as Python's `str(i)`. -/
def intChars (i : Int) : List Char :=
  if i < 0 then '-' :: natChars i.natAbs else natChars i.natAbs

/-- JSON string escaping as applied by `json.dumps` to printable-ASCII
characters: only `"` and `\` need escaping in that range. -/
def escChar (c : Char) : List Char :=
  if c = '"' then ['\\', '"']
  else if c = '\\' then ['\\', '\\']
  else [c]

/-- Escape a whole string body. -/
def escStr (s : List Char) : List Char := s.flatMap escChar

/-- The characters of the three JSON keyword literals. -/
def nullChars : List Char := ['n', 'u', 'l', 'l']

/-- See `nullChars`. -/
def trueChars : List Char := ['t', 'r', 'u', 'e']

/-- See `nullChars`. -/
def falseChars : List Char := ['f', 'a', 'l', 's', 'e']

mutual

/-- `json.dumps` with the default separators (`", "` and `": "`),
producing the exact character sequence Python emits for well-formed
values. -/
def dumps : Json → List Char
  | .null => nullChars
  | .bool true => trueChars
  | .bool false => falseChars
  | .num i => intChars i
  | .str s => '"' :: (escStr s.data ++ ['"'])
  | .arr [] => ['[', ']']
  | .arr (x :: xs) => '[' :: (dumps x ++ dumpsTail xs ++ [']'])
  | .obj [] => ['\x7b', '\x7d']
  | .obj (m :: ms) => '\x7b' :: (dumpsMem m ++ dumpsMemsTail ms ++ ['\x7d'])

/-- Remaining array elements, each preceded by `", "`. -/
def dumpsTail : List Json → List Char
  | [] => []
  | x :: xs => ',' :: ' ' :: (dumps x ++ dumpsTail xs)

/-- One object member `"key": value`. -/
def dumpsMem : String × Json → List Char
  | (k, v) => '"' :: (escStr k.data ++ '"' :: ':' :: ' ' :: dumps v)

/-- Remaining object members, each preceded by `", "`. -/
def dumpsMemsTail : List (String × Json) → List Char
  | [] => []
  | m :: ms => ',' :: ' ' :: (dumpsMem m ++ dumpsMemsTail ms)

end

/-- A character `json.dumps` passes through verbatim: printable ASCII.
Outside this range Python would emit `\uXXXX`/control escapes which the
model does not reproduce, so well-formedness of payloads is tracked. -/
def wfChar (c : Char) : Bool := 32 ≤ c.toNat && c.toNat ≤ 126

/-- All characters of a string are printable ASCII. -/
def wfStr (s : String) : Bool := s.data.all wfChar

mutual

/-- Well-formed JSON value: every string (value or key) is printable
ASCII, so the model's serializer agrees with Python's. -/
def jwf : Json → Bool
  | .null => true
  | .bool _ => true
  | .num _ => true
  | .str s => wfStr s
  | .arr xs => jwfL xs
  | .obj ms => jwfM ms

/-- `jwf` on every element of an array. -/
def jwfL : List Json → Bool
  | [] => true
  | x :: xs => jwf x && jwfL xs

/-- `jwf` on every member of an object, keys included. -/
def jwfM : List (String × Json) → Bool
  | [] => true
  | (k, v) :: ms => wfStr k && jwf v && jwfM ms

end

/-- Skip JSON insignificant whitespace, as `json.loads` does. -/
def skipSpaces : List Char → List Char
  | [] => []
  | c :: cs =>
    if c = ' ' ∨ c = '\t' ∨ c = '\n' ∨ c = '\r' then skipSpaces cs else c :: cs

/-- Parse a JSON string body after the opening quote, undoing the escape
sequences; returns the decoded characters and the input after the closing
quote. -/
def parseStrBody : List Char → Option (List Char × List Char)
  | [] => none
  | c :: cs =>
    if c = '"' then some ([], cs)
    else if c = '\\' then
      match cs with
      | [] => none
      | e :: cs2 =>
        let dec : Option Char :=
          if e = '"' then some '"'
          else if e = '\\' then some '\\'
          else if e = '/' then some '/'
          else if e = 'n' then some '\n'
          else if e = 't' then some '\t'
          else if e = 'r' then some '\r'
          else if e = 'b' then some (Char.ofNat 8)
          else if e = 'f' then some (Char.ofNat 12)
          else none
        match dec with
        | some d =>
          match parseStrBody cs2 with
          | some (s, r) => some (d :: s, r)
          | none => none
        | none => none
    else
      match parseStrBody cs with
      | some (s, r) => some (c :: s, r)
      | none => none

/-- Numeric value of a digit character. -/
def digitVal (c : Char) : Nat := c.toNat - 48

/-- Value of a list of decimal digit characters. -/
def digitsToNat (ds : List Char) : Nat :=
  ds.foldl (fun a c => a * 10 + digitVal c) 0

/-- Parse a maximal run of decimal digits into a natural number. -/
def parseNat (cs : List Char) : Option (Nat × List Char) :=
  let ds := cs.takeWhile Char.isDigit
  if ds = [] then none else some (digitsToNat ds, cs.dropWhile Char.isDigit)

mutual

/-- Recursive-descent JSON parser modelling `json.loads`; `fuel` bounds
the recursion depth and is instantiated with the input length by
`loads`. -/
def parseJson : Nat → List Char → Option (Json × List Char)
  | 0, _ => none
  | fuel + 1, cs =>
    match skipSpaces cs with
    | [] => none
    | c :: rest =>
      if c = 'n' then
        match rest with
        | 'u' :: 'l' :: 'l' :: r => some (.null, r)
        | _ => none
      else if c = 't' then
        match rest with
        | 'r' :: 'u' :: 'e' :: r => some (.bool true, r)
        | _ => none
      else if c = 'f' then
        match rest with
        | 'a' :: 'l' :: 's' :: 'e' :: r => some (.bool false, r)
        | _ => none
      else if c = '"' then
        match parseStrBody rest with
        | some (s, r) => some (.str ⟨s⟩, r)
        | none => none
      else if c = '[' then
        match skipSpaces rest with
        | [] => none
        | c2 :: r =>
          if c2 = ']' then some (.arr [], r)
          else
            match parseElems fuel (c2 :: r) with
            | some (xs, r2) => some (.arr xs, r2)
            | none => none
      else if c = '\x7b' then
        match skipSpaces rest with
        | [] => none
        | c2 :: r =>
          if c2 = '\x7d' then some (.obj [], r)
          else
            match parseMembers fuel (c2 :: r) with
            | some (ms, r2) => some (.obj ms, r2)
            | none => none
      else if c = '-' then
        match parseNat rest with
        | some (n, r) => some (.num (-(n : Int)), r)
        | none => none
      else if c.isDigit then
        match parseNat (c :: rest) with
        | some (n, r) => some (.num (n : Int), r)
        | none => none
      else none

/-- Parse one or more comma-separated array elements up to `]`. -/
def parseElems : Nat → List Char → Option (List Json × List Char)
  | 0, _ => none
  | fuel + 1, cs =>
    match parseJson fuel cs with
    | some (v, r) =>
      match skipSpaces r with
      | [] => none
      | c :: r2 =>
        if c = ',' then
          match parseElems fuel r2 with
          | some (vs, r3) => some (v :: vs, r3)
          | none => none
        else if c = ']' then some ([v], r2)
        else none
    | none => none

/-- Parse one or more comma-separated object members up to the closing
brace. -/
def parseMembers : Nat → List Char → Option (List (String × Json) × List Char)
  | 0, _ => none
  | fuel + 1, cs =>
    match skipSpaces cs with
    | [] => none
    | c :: cs1 =>
      if c = '"' then
        match parseStrBody cs1 with
        | some (k, r) =>
          match skipSpaces r with
          | [] => none
          | c2 :: r2 =>
            if c2 = ':' then
              match parseJson fuel r2 with
              | some (v, r3) =>
                match skipSpaces r3 with
                | [] => none
                | c3 :: r4 =>
                  if c3 = ',' then
                    match parseMembers fuel r4 with
                    | some (ms, r5) => some ((⟨k⟩, v) :: ms, r5)
                    | none => none
                  else if c3 = '\x7d' then some ([(⟨k⟩, v)], r4)
                  else none
              | none => none
            else none
        | none => none
      else none

end

/-- `json.loads`: parse a complete document, allowing only trailing
whitespace (otherwise Python raises `JSONDecodeError`, modelled by
`none`). -/
def loads (cs : List Char) : Option Json :=
  match parseJson (cs.length + 1) cs with
  | some (v, rest) => if skipSpaces rest = [] then some v else none
  | none => none

/-! ## Configuration (`Config` class, after CLI overrides) -/

/-- The mutable `Config` class of `cloud_sync.py`: topics, dispatch mode,
batching parameters and edge identity.  Broker addresses and ports are
connection-level details irrelevant to the verified logic. -/
structure Config where
  LOCAL_TOPIC : String := "agrisense/sensors/data"
  CLOUD_TOPIC : String := "agrisense/sensors/data"
  CLOUD_ALARMS_TOPIC : String := "agrisense/alarms"
  REALTIME_MODE : Bool := true
  BATCH_SIZE : Nat := 1
  BATCH_TIMEOUT : Nat := 2
  RETRY_INTERVAL : Nat := 5
  EDGE_ID : String := "edge-rpi-001"
  EDGE_NAME : String := "AgriSense Gateway"
  EDGE_LOCATION : String := "Greenhouse-A"

/-! ## `OfflineQueue` (SQLite table `reading_queue`) -/

/-- One row of the `reading_queue` table: autoincrement id, the
JSON-encoded `data` TEXT column, `created_at` (CURRENT_TIMESTAMP at
insertion) and the `status` column (always `'pending'`; the code never
updates it). -/
structure Row where
  id : Nat
  data : List Char
  created_at : Nat
  status : String

/-- The persisted queue: rows in insertion (rowid) order together with the
next AUTOINCREMENT id (SQLite starts at 1). -/
structure QState where
  nextId : Nat := 1
  rows : List Row := []

/-- `OfflineQueue.enqueue`: INSERT the `json.dumps`-serialised record,
returning the assigned rowid. -/
def OfflineQueue.enqueue (st : QState) (data : Json) (now : Nat) : Nat × QState :=
  (st.nextId,
   { nextId := st.nextId + 1,
     rows := st.rows ++ [⟨st.nextId, dumps data, now, "pending"⟩] })

/-- `ScanOf st scan`: `scan` is an admissible order in which the store
delivers the table's rows.  SQLite specifies neither the scan order of a
table nor the relative order of rows with equal `ORDER BY` keys, and
`created_at` (CURRENT_TIMESTAMP) has one-second granularity, so rows
enqueued within the same second compare equal; every permutation of the
table composed with the model's stable sort below realises exactly the
outputs the store may produce. -/
def ScanOf (st : QState) (scan : List Row) : Prop := scan.Perm st.rows

/-- Rows selected and ordered as by
`SELECT id, data WHERE status = 'pending' ORDER BY created_at ASC LIMIT ?`
when the store delivers the table in the order `scan`: filter, sort on
`created_at` (equal keys keep the unspecified delivery order `scan`),
truncate.  The SELECT does not mutate the store, hence no state is
returned. -/
def selectPending (scan : List Row) (limit : Nat) : List Row :=
  (((scan.filter (fun r => r.status = "pending")).insertionSort
      (fun a b => a.created_at ≤ b.created_at)).take limit)

/-- `json.loads` each selected row's TEXT column; a row that fails to
parse would raise inside `get_pending`, modelled by `none`. -/
def parseRows : List Row → Option (List (Nat × Json))
  | [] => some []
  | r :: rs =>
    match loads r.data, parseRows rs with
    | some j, some l => some ((r.id, j) :: l)
    | _, _ => none

/-- `OfflineQueue.get_pending`: up to `limit` pending rows in
`created_at` order, each as `{'id': ..., 'data': json.loads(...)}`.  The
queue state enters through `scan`, an admissible delivery order of its
table (`ScanOf st scan` in every theorem); equal-`created_at` rows keep
that unspecified order. -/
def OfflineQueue.get_pending (scan : List Row) (limit : Nat) : Option (List (Nat × Json)) :=
  parseRows (selectPending scan limit)

/-- `OfflineQueue.mark_sent`: `DELETE FROM reading_queue WHERE id IN ids`
(the early return for `ids = []` deletes nothing, which the filter also
does). -/
def OfflineQueue.mark_sent (st : QState) (ids : List Nat) : QState :=
  { st with rows := st.rows.filter (fun r => ¬ ids.contains r.id) }

/-- `OfflineQueue.get_count`: number of pending rows. -/
def OfflineQueue.get_count (st : QState) : Nat :=
  (st.rows.filter (fun r => r.status = "pending")).length

/-! ## Service state and `_send_to_cloud` -/

/-- The `stats` dictionary of `CloudSyncService`. -/
structure Stats where
  readings_received : Nat := 0
  readings_sent : Nat := 0
  readings_queued : Nat := 0
  connection_errors : Nat := 0
  last_sync : Option Nat := none

/-- The mutable state of `CloudSyncService` relevant to dispatch: the
durable queue, the two connection flags, the in-memory batch buffer with
its last-flush time, and the statistics counters. -/
structure SyncState where
  queue : QState := {}
  cloud_connected : Bool := false
  local_connected : Bool := false
  batch_buffer : List Json := []
  last_batch_time : Nat := 0
  stats : Stats := {}

/-- Outcome of one `cloud_client.publish` call, as seen by the caller:
`ok` (`MQTT_ERR_SUCCESS`), `err` (any other return code), or `exn`
(the call raised). -/
inductive PubOutcome where
  | ok : PubOutcome
  | err : PubOutcome
  | exn : PubOutcome
deriving DecidableEq

/-- The record `_send_to_cloud` enqueues on failure:
`{'topic': topic, 'payload': payload}`. -/
def queuedRecord (topic : String) (payload : Json) : Json :=
  .obj [("topic", .str topic), ("payload", payload)]

/-- `CloudSyncService._send_to_cloud`: publish if connected, otherwise (or
on a failed publish) enqueue into the offline queue.  Returns the success
flag, the new state, and whether a publish was attempted at all. -/
def send_to_cloud (st : SyncState) (out : PubOutcome) (topic : String)
    (payload : Json) (now : Nat) : Bool × SyncState × Bool :=
  if st.cloud_connected = false then
    (false,
     { st with
        queue := (OfflineQueue.enqueue st.queue (queuedRecord topic payload) now).2,
        stats := { st.stats with readings_queued := st.stats.readings_queued + 1 } },
     false)
  else
    match out with
    | .ok =>
      (true,
       { st with
          stats := { st.stats with
                      readings_sent := st.stats.readings_sent + 1,
                      last_sync := some now } },
       true)
    | .err =>
      (false,
       { st with
          queue := (OfflineQueue.enqueue st.queue (queuedRecord topic payload) now).2,
          stats := { st.stats with readings_queued := st.stats.readings_queued + 1 } },
       true)
    | .exn =>
      (false,
       { st with
          queue := (OfflineQueue.enqueue st.queue (queuedRecord topic payload) now).2,
          stats := { st.stats with readings_queued := st.stats.readings_queued + 1 } },
       true)

/-! ## `_handle_local_message` -/

/-- Python `d[k] = v` on a dict modelled as an ordered association list:
replace in place if the key exists, else append. -/
def dictSet : List (String × Json) → String → Json → List (String × Json)
  | [], k, v => [(k, v)]
  | (k1, v1) :: rest, k, v =>
    if k1 = k then (k, v) :: rest else (k1, v1) :: dictSet rest k v

/-- The four metadata assignments of `_handle_local_message`:
`edge_id`, `edge_name`, `edge_location`, `received_at`
(`datetime.now().isoformat()` modelled as the numeric time `now`). -/
def stampMeta (cfg : Config) (now : Nat) (kvs : List (String × Json)) :
    List (String × Json) :=
  dictSet
    (dictSet
      (dictSet
        (dictSet kvs "edge_id" (.str cfg.EDGE_ID))
        "edge_name" (.str cfg.EDGE_NAME))
      "edge_location" (.str cfg.EDGE_LOCATION))
    "received_at" (.num now)

/-- Observable effect of `_handle_local_message` on one inbound local
message. -/
inductive LEffect where
  /-- `json.loads` raised `JSONDecodeError`: logged, dropped. -/
  | droppedDecode : LEffect
  /-- a later step raised (e.g. item assignment on a non-dict payload):
  caught by the generic handler, logged, dropped. -/
  | droppedError : LEffect
  /-- forwarded immediately through `_send_to_cloud`. -/
  | sentNow : String → Json → LEffect
  /-- appended to the in-memory batch buffer. -/
  | buffered : Json → LEffect

/-- `CloudSyncService._handle_local_message`: decode, stamp metadata,
then alarm-bypass / realtime send / batch append. -/
def handle_local_message (cfg : Config) (st : SyncState) (topic : String)
    (raw : List Char) (now : Nat) (out : PubOutcome) : SyncState × LEffect :=
  match loads raw with
  | none => (st, .droppedDecode)
  | some j =>
    let st1 := { st with
      stats := { st.stats with readings_received := st.stats.readings_received + 1 } }
    match j with
    | .obj kvs =>
      let p : Json := .obj (stampMeta cfg now kvs)
      if topic = "agrisense/alarms" then
        let r := send_to_cloud st1 out cfg.CLOUD_ALARMS_TOPIC p now
        (r.2.1, .sentNow cfg.CLOUD_ALARMS_TOPIC p)
      else if cfg.REALTIME_MODE then
        let r := send_to_cloud st1 out cfg.CLOUD_TOPIC p now
        (r.2.1, .sentNow cfg.CLOUD_TOPIC p)
      else
        ({ st1 with batch_buffer := st1.batch_buffer ++ [p] }, .buffered p)
    | _ => (st1, .droppedError)

/-! ## `_handle_cloud_message` -/

/-- `CloudSyncService._handle_cloud_message`: decode the command and, when
the local link is connected, republish it on `agrisense/commands` as
`json.dumps(payload)`.  `none` models "no local publish happened" (decode
failure, or local link down). -/
def handle_cloud_message (st : SyncState) (raw : List Char) :
    Option (String × List Char) :=
  match loads raw with
  | none => none
  | some j =>
    if st.local_connected then some ("agrisense/commands", dumps j) else none

/-! ## `_batch_sender_loop` and `_send_batch` -/

/-- State touched by the batch sender: the shared buffer, the time of the
last flush, and the current clock (1 tick = 1 second of `time.sleep(1)`). -/
structure BatchState where
  buffer : List Json := []
  lastBatch : Nat := 0
  now : Nat := 0

/-- The check of `_batch_sender_loop`: full batch, or non-empty batch
whose timeout has elapsed since the last flush. -/
def shouldSend (cfg : Config) (st : BatchState) : Bool :=
  if cfg.BATCH_SIZE ≤ st.buffer.length then true
  else if 0 < st.buffer.length then
    decide (cfg.BATCH_TIMEOUT ≤ st.now - st.lastBatch)
  else false

/-- The batch payload `_send_batch` forwards: edge identity, size, flush
time, and the buffered readings in arrival order. -/
def batchPayload (cfg : Config) (now : Nat) (batch : List Json) : Json :=
  .obj [("edge_id", .str cfg.EDGE_ID),
        ("edge_name", .str cfg.EDGE_NAME),
        ("batch_size", .num batch.length),
        ("batch_time", .num now),
        ("readings", .arr batch)]

/-- `CloudSyncService._send_batch`: atomically take and clear the buffer
(no-op on an empty buffer) and emit the batch record. -/
def send_batch (cfg : Config) (st : BatchState) : BatchState × Option Json :=
  match st.buffer with
  | [] => (st, none)
  | _ =>
    ({ buffer := [], lastBatch := st.now, now := st.now },
     some (batchPayload cfg st.now st.buffer))

/-- Events driving the batch machinery: a record arriving from the
dispatch policy, or one polling tick of `_batch_sender_loop`. -/
inductive BEvent where
  | arrive : Json → BEvent
  | tick : BEvent

/-- One step: an arrival appends to the buffer; a tick advances the clock
by the 1-unit polling interval and flushes when `shouldSend` holds. -/
def stepB (cfg : Config) (st : BatchState) : BEvent → BatchState × Option Json
  | .arrive p => ({ st with buffer := st.buffer ++ [p] }, none)
  | .tick =>
    let st1 := { st with now := st.now + 1 }
    if shouldSend cfg st1 then send_batch cfg st1 else (st1, none)

/-- Run a trace of events, collecting every flushed batch record. -/
def runB (cfg : Config) : BatchState → List BEvent → BatchState × List Json
  | st, [] => (st, [])
  | st, e :: es =>
    let r1 := stepB cfg st e
    let r2 := runB cfg r1.1 es
    (r2.1, r1.2.toList ++ r2.2)

/-! ## `_offline_queue_processor` (drain worker) -/

/-- Destination of one queued item in the drain loop:
`topic = item['data'].get('topic', CLOUD_TOPIC)`,
`payload = item['data'].get('payload', item['data'])`.
`none` models the raises (`.get` on a non-dict, or a non-string topic
handed to `publish`), which the `except` clause turns into a `break`. -/
def entryDest (cfg : Config) (d : Json) : Option (String × Json) :=
  match d with
  | .obj kvs =>
    let payload := match kvs.lookup "payload" with
      | some p => p
      | none => .obj kvs
    match kvs.lookup "topic" with
    | some (.str t) => some (t, payload)
    | some _ => none
    | none => some (cfg.CLOUD_TOPIC, payload)
  | _ => none

/-- The `for item in pending` loop of `_offline_queue_processor`, with
`out k` the outcome of the `k`-th publish of the cycle.  Returns the
publish attempts made, in order, as `(id, topic, payload)`, and the
`sent_ids` collected for deletion.  A raised publish (`exn`) hits the
`except ... break` and ends the cycle; a non-success return code merely
leaves the id uncollected and continues. -/
def drainLoop (cfg : Config) (out : Nat → PubOutcome) :
    List (Nat × Json) → Nat → List (Nat × String × Json) × List Nat
  | [], _ => ([], [])
  | (i, d) :: rest, k =>
    match entryDest cfg d with
    | none => ([], [])
    | some (t, p) =>
      match out k with
      | .exn => ([(i, t, p)], [])
      | .ok =>
        let r := drainLoop cfg out rest (k + 1)
        ((i, t, p) :: r.1, i :: r.2)
      | .err =>
        let r := drainLoop cfg out rest (k + 1)
        ((i, t, p) :: r.1, r.2)

/-- One full drain cycle while connected: fetch up to 50 pending entries,
run the loop, delete exactly the collected ids.  Returns the publish
attempts of the cycle alongside the new queue state; `none` models an
unparsable row (an exception escaping `get_pending`). -/
def drainCycle (cfg : Config) (out : Nat → PubOutcome) (st : QState)
    (scan : List Row) : Option (QState × List (Nat × String × Json)) :=
  match OfflineQueue.get_pending scan 50 with
  | none => none
  | some pending =>
    let r := drainLoop cfg out pending 0
    some (OfflineQueue.mark_sent st r.2, r.1)

/-! ## Round-trip lemmas: digits and numbers -/

/-- A follow-set condition for token parsing: the residual input does not
begin with a digit (so a preceding number token is read maximally). -/
def FOk : List Char → Prop
  | [] => True
  | c :: _ => c.isDigit = false

theorem digitChar_isDigit (d : Nat) (h : d < 10) : (digitChar d).isDigit = true := by
  interval_cases d <;> decide

theorem digitVal_digitChar (d : Nat) (h : d < 10) : digitVal (digitChar d) = d := by
  interval_cases d <;> decide

theorem natCharsAux_fuel_irrelevant (fuel : Nat) :
    ∀ fuel2 n, n < fuel → n < fuel2 → natCharsAux fuel n = natCharsAux fuel2 n := by
  induction fuel with
  | zero => intro fuel2 n h; omega
  | succ f ih =>
    intro fuel2 n h h2
    cases fuel2 with
    | zero => omega
    | succ f2 =>
      rw [natCharsAux, natCharsAux]
      split
      · rfl
      · have hdiv : n / 10 < n := Nat.div_lt_self (by omega) (by omega)
        rw [ih f2 (n / 10) (by omega) (by omega)]

theorem natChars_eq_aux (fuel n : Nat) (h : n < fuel) :
    natChars n = natCharsAux fuel n :=
  natCharsAux_fuel_irrelevant (n + 1) fuel n (by omega) h

theorem natChars_all_digit (n : Nat) : ∀ c ∈ natChars n, c.isDigit = true := by
  induction n using Nat.strong_induction_on with
  | _ n ih =>
    rw [natChars_eq_aux (n + 1) n (by omega), natCharsAux]
    split
    · intro c hc
      rcases List.mem_singleton.mp hc with rfl
      exact digitChar_isDigit n (by omega)
    · intro c hc
      rcases List.mem_append.mp hc with h1 | h1
      · have hdiv : n / 10 < n := Nat.div_lt_self (by omega) (by omega)
        rw [← natChars_eq_aux n (n / 10) hdiv] at h1
        exact ih (n / 10) hdiv c h1
      · rcases List.mem_singleton.mp h1 with rfl
        exact digitChar_isDigit _ (Nat.mod_lt _ (by omega))

theorem natChars_head (n : Nat) :
    ∃ c cs, natChars n = c :: cs ∧ c.isDigit = true := by
  induction n using Nat.strong_induction_on with
  | _ n ih =>
    rw [natChars_eq_aux (n + 1) n (by omega), natCharsAux]
    split
    · exact ⟨digitChar n, [], rfl, digitChar_isDigit n (by omega)⟩
    · have hdiv : n / 10 < n := Nat.div_lt_self (by omega) (by omega)
      obtain ⟨c, cs, hc, hd⟩ := ih (n / 10) hdiv
      rw [← natChars_eq_aux n (n / 10) hdiv, hc]
      exact ⟨c, cs ++ [digitChar (n % 10)], rfl, hd⟩

theorem digitsToNat_append_singleton (xs : List Char) (d : Char) :
    digitsToNat (xs ++ [d]) = digitsToNat xs * 10 + digitVal d := by
  simp [digitsToNat, List.foldl_append]

theorem digitsToNat_natChars (n : Nat) : digitsToNat (natChars n) = n := by
  induction n using Nat.strong_induction_on with
  | _ n ih =>
    rw [natChars_eq_aux (n + 1) n (by omega), natCharsAux]
    split
    · simp [digitsToNat, digitVal_digitChar n (by omega)]
    · have hdiv : n / 10 < n := Nat.div_lt_self (by omega) (by omega)
      rw [← natChars_eq_aux n (n / 10) hdiv, digitsToNat_append_singleton,
        ih (n / 10) hdiv,
        digitVal_digitChar _ (Nat.mod_lt _ (by omega))]
      omega

theorem takeWhile_all_append (p : Char → Bool) (xs rest : List Char)
    (hxs : ∀ c ∈ xs, p c = true) (hr : ∀ c cs, rest = c :: cs → p c = false) :
    (xs ++ rest).takeWhile p = xs ∧ (xs ++ rest).dropWhile p = rest := by
  induction xs with
  | nil =>
    simp only [List.nil_append]
    cases rest with
    | nil => simp
    | cons c cs => simp [List.takeWhile, List.dropWhile, hr c cs rfl]
  | cons x xs ih =>
    have hx : p x = true := hxs x (by simp)
    have := ih (fun c hc => hxs c (by simp [hc]))
    simp [List.takeWhile, List.dropWhile, hx, this.1, this.2]

theorem parseNat_natChars (n : Nat) (rest : List Char) (hr : FOk rest) :
    parseNat (natChars n ++ rest) = some (n, rest) := by
  have hfail : ∀ c cs, rest = c :: cs → c.isDigit = false := by
    intro c cs h; rw [h] at hr; exact hr
  obtain ⟨ht, hd⟩ :=
    takeWhile_all_append Char.isDigit (natChars n) rest (natChars_all_digit n) hfail
  obtain ⟨c, cs, hc, _⟩ := natChars_head n
  rw [parseNat]
  simp only [ht, hd]
  rw [if_neg (by rw [hc]; exact List.cons_ne_nil c cs), digitsToNat_natChars]

/-! ## Round-trip lemmas: strings and whitespace -/

theorem parseStrBody_esc (s rest : List Char) :
    parseStrBody (escStr s ++ '"' :: rest) = some (s, rest) := by
  induction s with
  | nil =>
    show parseStrBody ('"' :: rest) = some ([], rest)
    rw [parseStrBody.eq_def]; simp
  | cons c s ih =>
    show parseStrBody ((escChar c ++ escStr s) ++ '"' :: rest) = some (c :: s, rest)
    by_cases h1 : c = '"'
    · subst h1
      show parseStrBody ('\\' :: '"' :: (escStr s ++ '"' :: rest)) = _
      rw [parseStrBody.eq_def]; simp [ih]
    · by_cases h2 : c = '\\'
      · subst h2
        show parseStrBody ('\\' :: '\\' :: (escStr s ++ '"' :: rest)) = _
        rw [parseStrBody.eq_def]; simp [ih]
      · have hesc : escChar c = [c] := by rw [escChar, if_neg h1, if_neg h2]
        rw [hesc]
        show parseStrBody (c :: (escStr s ++ '"' :: rest)) = _
        rw [parseStrBody.eq_def]; simp [h1, h2, ih]

theorem skipSpaces_cons_of {c : Char} (cs : List Char)
    (h : ¬(c = ' ' ∨ c = '\t' ∨ c = '\n' ∨ c = '\r')) :
    skipSpaces (c :: cs) = c :: cs := by
  rw [skipSpaces, if_neg h]

theorem skipSpaces_cons_space (cs : List Char) :
    skipSpaces (' ' :: cs) = skipSpaces cs := by
  rw [skipSpaces, if_pos (Or.inl rfl)]

/-- Every serialised value starts with one of the token-start characters
(and in particular with no whitespace and no closing delimiter). -/
theorem dumps_head (v : Json) :
    ∃ c cs, dumps v = c :: cs ∧
      (c = 'n' ∨ c = 't' ∨ c = 'f' ∨ c = '"' ∨ c = '[' ∨ c = '\x7b' ∨
       c = '-' ∨ c.isDigit = true) := by
  cases v with
  | null => exact ⟨'n', _, rfl, by simp⟩
  | bool b => cases b with
    | true => exact ⟨'t', _, rfl, by simp⟩
    | false => exact ⟨'f', _, rfl, by simp⟩
  | num i =>
    rw [dumps, intChars]
    split
    · exact ⟨'-', _, rfl, by simp⟩
    · obtain ⟨c, cs, hc, hd⟩ := natChars_head i.natAbs
      exact ⟨c, cs, hc, by simp [hd]⟩
  | str s => exact ⟨'"', _, rfl, by simp⟩
  | arr xs => cases xs with
    | nil => exact ⟨'[', _, rfl, by simp⟩
    | cons x xs => exact ⟨'[', _, rfl, by simp⟩
  | obj ms => cases ms with
    | nil => exact ⟨'\x7b', _, rfl, by simp⟩
    | cons m ms => exact ⟨'\x7b', _, rfl, by simp⟩

/-- Token-start characters are not whitespace and not closing
delimiters. -/
theorem start_ne {c : Char}
    (h : c = 'n' ∨ c = 't' ∨ c = 'f' ∨ c = '"' ∨ c = '[' ∨ c = '\x7b' ∨
         c = '-' ∨ c.isDigit = true) :
    ¬(c = ' ' ∨ c = '\t' ∨ c = '\n' ∨ c = '\r') ∧ c ≠ ']' ∧ c ≠ '\x7d' := by
  rcases h with rfl | rfl | rfl | rfl | rfl | rfl | rfl | h
  · exact ⟨by decide, by decide, by decide⟩
  · exact ⟨by decide, by decide, by decide⟩
  · exact ⟨by decide, by decide, by decide⟩
  · exact ⟨by decide, by decide, by decide⟩
  · exact ⟨by decide, by decide, by decide⟩
  · exact ⟨by decide, by decide, by decide⟩
  · exact ⟨by decide, by decide, by decide⟩
  · refine ⟨?_, ?_, ?_⟩
    · rintro (rfl | rfl | rfl | rfl) <;> exact absurd h (by decide)
    · rintro rfl; exact absurd h (by decide)
    · rintro rfl; exact absurd h (by decide)

theorem skipSpaces_dumps (v : Json) (rest : List Char) :
    skipSpaces (dumps v ++ rest) = dumps v ++ rest := by
  obtain ⟨c, cs, hc, hstart⟩ := dumps_head v
  rw [hc, List.cons_append, skipSpaces_cons_of _ (start_ne hstart).1]

/-! ## Round-trip: the main parser lemma -/

theorem parseJson_cons_space (fuel : Nat) (cs : List Char) :
    parseJson fuel (' ' :: cs) = parseJson fuel cs := by
  cases fuel with
  | zero => rfl
  | succ f =>
    rw [parseJson.eq_def]
    conv_rhs => rw [parseJson.eq_def]
    dsimp only
    rw [skipSpaces_cons_space]

theorem parseElems_cons_space (fuel : Nat) (cs : List Char) :
    parseElems fuel (' ' :: cs) = parseElems fuel cs := by
  cases fuel with
  | zero => rfl
  | succ f =>
    rw [parseElems.eq_def]
    conv_rhs => rw [parseElems.eq_def]
    dsimp only
    rw [parseJson_cons_space]

theorem parseMembers_cons_space (fuel : Nat) (cs : List Char) :
    parseMembers fuel (' ' :: cs) = parseMembers fuel cs := by
  cases fuel with
  | zero => rfl
  | succ f =>
    rw [parseMembers.eq_def]
    conv_rhs => rw [parseMembers.eq_def]
    dsimp only
    rw [skipSpaces_cons_space]

theorem fok_dumpsTail_close (xs : List Json) (rest : List Char) :
    FOk (dumpsTail xs ++ (']' :: rest)) := by
  cases xs with
  | nil => show (']').isDigit = false; decide
  | cons x xs => show (',').isDigit = false; decide

theorem fok_dumpsMemsTail_close (ms : List (String × Json)) (rest : List Char) :
    FOk (dumpsMemsTail ms ++ ('\x7d' :: rest)) := by
  cases ms with
  | nil => show ('\x7d').isDigit = false; decide
  | cons m ms => show (',').isDigit = false; decide

theorem strMk_data (s : String) : String.mk s.data = s := by
  cases s; rfl

theorem digit_ne_starts {c : Char} (h : c.isDigit = true) :
    c ≠ 'n' ∧ c ≠ 't' ∧ c ≠ 'f' ∧ c ≠ '"' ∧ c ≠ '[' ∧ c ≠ '\x7b' ∧ c ≠ '-' := by
  refine ⟨?_, ?_, ?_, ?_, ?_, ?_, ?_⟩ <;>
    (rintro rfl; exact absurd h (by decide))

set_option maxHeartbeats 1000000 in
theorem parse_dumps (fuel : Nat) :
    (∀ v rest, (dumps v).length < fuel → FOk rest →
       parseJson fuel (dumps v ++ rest) = some (v, rest)) ∧
    (∀ x xs rest, (dumps x).length + (dumpsTail xs).length + 2 ≤ fuel → FOk rest →
       parseElems fuel (dumps x ++ (dumpsTail xs ++ (']' :: rest))) =
         some (x :: xs, rest)) ∧
    (∀ k v ms rest,
       (dumpsMem (k, v)).length + (dumpsMemsTail ms).length + 2 ≤ fuel → FOk rest →
       parseMembers fuel (dumpsMem (k, v) ++ (dumpsMemsTail ms ++ ('\x7d' :: rest))) =
         some ((k, v) :: ms, rest)) := by
  induction fuel using Nat.strong_induction_on with
  | _ fuel ih =>
    refine ⟨?_, ?_, ?_⟩
    · intro v rest hlen hrest
      cases fuel with
      | zero => exact absurd hlen (by omega)
      | succ f =>
        cases v with
        | null =>
          rw [dumps, parseJson.eq_def]
          dsimp only
          rw [show skipSpaces (nullChars ++ rest) = 'n' :: ('u' :: 'l' :: 'l' :: rest) from
            skipSpaces_cons_of _ (by decide)]
          simp
        | bool b =>
          cases b with
          | true =>
            rw [dumps, parseJson.eq_def]
            dsimp only
            rw [show skipSpaces (trueChars ++ rest) = 't' :: ('r' :: 'u' :: 'e' :: rest) from
              skipSpaces_cons_of _ (by decide)]
            simp
          | false =>
            rw [dumps, parseJson.eq_def]
            dsimp only
            rw [show skipSpaces (falseChars ++ rest) = 'f' :: ('a' :: 'l' :: 's' :: 'e' :: rest) from
              skipSpaces_cons_of _ (by decide)]
            simp
        | num i =>
          rw [dumps]
          by_cases hneg : i < 0
          · rw [intChars, if_pos hneg, parseJson.eq_def]
            dsimp only
            rw [List.cons_append,
              skipSpaces_cons_of _ (by decide)]
            dsimp only
            simp +decide only [if_false, if_true]
            rw [parseNat_natChars _ _ hrest]
            have hi : (-(i.natAbs : Int)) = i := by
              rw [Int.ofNat_natAbs_of_nonpos (by omega)]; omega
            dsimp only
            rw [hi]
          · rw [intChars, if_neg hneg]
            obtain ⟨c, cs, hc, hd⟩ := natChars_head i.natAbs
            obtain ⟨n1, n2, n3, n4, n5, n6, n7⟩ := digit_ne_starts hd
            rw [parseJson.eq_def]
            dsimp only
            rw [hc, List.cons_append,
              skipSpaces_cons_of _ (start_ne (by simp [hd])).1]
            dsimp only
            rw [if_neg n1, if_neg n2, if_neg n3, if_neg n4, if_neg n5, if_neg n6,
              if_neg n7, if_pos hd, show c :: (cs ++ rest) = (c :: cs) ++ rest from rfl,
              ← hc, parseNat_natChars _ _ hrest]
            have hi : ((i.natAbs : Int)) = i := Int.natAbs_of_nonneg (by omega)
            simp [hi]
        | str s =>
          rw [dumps, parseJson.eq_def]
          dsimp only
          rw [List.cons_append, skipSpaces_cons_of _ (by decide)]
          dsimp only
          simp +decide only [if_false, if_true]
          rw [List.append_assoc, List.singleton_append, parseStrBody_esc]
        | arr xs =>
          cases xs with
          | nil =>
            rw [dumps, parseJson.eq_def]
            dsimp only
            rw [show (['[', ']'] ++ rest) = '[' :: (']' :: rest) from rfl,
              skipSpaces_cons_of _ (by decide)]
            dsimp only
            simp +decide only [if_false, if_true]
            rw [skipSpaces_cons_of _ (by decide)]
            simp
          | cons x xs =>
            have hlen2 : (dumps x).length + (dumpsTail xs).length + 2 ≤ f := by
              rw [dumps] at hlen
              simp [List.length_append] at hlen
              omega
            rw [dumps, parseJson.eq_def]
            dsimp only
            rw [List.cons_append, skipSpaces_cons_of _ (by decide)]
            dsimp only
            simp +decide only [if_false, if_true]
            rw [List.append_assoc, List.append_assoc, List.singleton_append]
            rw [skipSpaces_dumps]
            obtain ⟨c2, l2, hx, hst⟩ := dumps_head x
            rw [hx, List.cons_append]
            dsimp only
            rw [if_neg (start_ne hst).2.1, ← List.cons_append, ← hx,
              (ih f (by omega)).2.1 x xs rest hlen2 hrest]
        | obj ms =>
          cases ms with
          | nil =>
            rw [dumps, parseJson.eq_def]
            dsimp only
            rw [show (['\x7b', '\x7d'] ++ rest) = '\x7b' :: ('\x7d' :: rest) from rfl,
              skipSpaces_cons_of _ (by decide)]
            dsimp only
            simp +decide only [if_false, if_true]
            rw [skipSpaces_cons_of _ (by decide)]
            simp
          | cons m ms =>
            obtain ⟨k, v⟩ := m
            have hlen2 : (dumpsMem (k, v)).length + (dumpsMemsTail ms).length + 2 ≤ f := by
              rw [dumps] at hlen
              simp [List.length_append] at hlen
              omega
            rw [dumps, parseJson.eq_def]
            dsimp only
            rw [List.cons_append, skipSpaces_cons_of _ (by decide)]
            dsimp only
            simp +decide only [if_false, if_true]
            rw [List.append_assoc, List.append_assoc, List.singleton_append]
            have hmem : ∃ c2 l2, dumpsMem (k, v) = c2 :: l2 ∧ c2 = '"' := by
              rw [dumpsMem]; exact ⟨'"', _, rfl, rfl⟩
            obtain ⟨c2, l2, hx, hst⟩ := hmem
            subst hst
            rw [hx, List.cons_append, skipSpaces_cons_of _ (by decide)]
            dsimp only
            rw [if_neg (by decide : ¬('"' : Char) = '\x7d'), ← List.cons_append, ← hx,
              (ih f (by omega)).2.2 k v ms rest hlen2 hrest]
    · intro x xs rest hlen hrest
      cases fuel with
      | zero => exact absurd hlen (by omega)
      | succ f =>
        rw [parseElems.eq_def]
        dsimp only
        rw [(ih f (by omega)).1 x _ (by omega) (fok_dumpsTail_close xs rest)]
        dsimp only
        cases xs with
        | nil =>
          rw [dumpsTail, List.nil_append, skipSpaces_cons_of _ (by decide)]
          dsimp only
          rw [if_neg (by decide : ¬(']' : Char) = ','), if_pos rfl]
        | cons y ys =>
          have hlen2 : (dumps y).length + (dumpsTail ys).length + 2 ≤ f := by
            rw [dumpsTail] at hlen
            simp [List.length_append] at hlen
            omega
          rw [dumpsTail, List.cons_append, List.cons_append,
            skipSpaces_cons_of _ (by decide)]
          dsimp only
          rw [if_pos rfl, List.append_assoc, parseElems_cons_space,
            (ih f (by omega)).2.1 y ys rest hlen2 hrest]
    · intro k v ms rest hlen hrest
      cases fuel with
      | zero => exact absurd hlen (by omega)
      | succ f =>
        rw [parseMembers.eq_def]
        dsimp only
        rw [dumpsMem, List.cons_append, skipSpaces_cons_of _ (by decide)]
        dsimp only
        simp +decide only [if_false, if_true]
        rw [List.append_assoc, List.cons_append, List.cons_append, List.cons_append,
          parseStrBody_esc]
        dsimp only
        rw [skipSpaces_cons_of _ (by decide)]
        dsimp only
        simp +decide only [if_false, if_true]
        rw [parseJson_cons_space,
          (ih f (by omega)).1 v _ (by rw [dumpsMem] at hlen; simp [List.length_append] at hlen; omega)
            (fok_dumpsMemsTail_close ms rest)]
        dsimp only
        cases ms with
        | nil =>
          rw [dumpsMemsTail, List.nil_append, skipSpaces_cons_of _ (by decide)]
          dsimp only
          rw [if_neg (by decide : ¬('\x7d' : Char) = ','), if_pos rfl]
        | cons m2 ms2 =>
          obtain ⟨k2, v2⟩ := m2
          have hlen2 : (dumpsMem (k2, v2)).length + (dumpsMemsTail ms2).length + 2 ≤ f := by
            rw [dumpsMemsTail] at hlen
            simp [List.length_append] at hlen
            omega
          rw [dumpsMemsTail, List.cons_append, List.cons_append,
            skipSpaces_cons_of _ (by decide)]
          dsimp only
          rw [if_pos rfl, parseMembers_cons_space, List.append_assoc,
            (ih f (by omega)).2.2 k2 v2 ms2 rest hlen2 hrest]


/-- `json.loads` inverts `json.dumps`: the serialisation stored in the
durable queue decodes to exactly the value that was serialised. -/
theorem loads_dumps (v : Json) : loads (dumps v) = some v := by
  rw [loads]
  have h := (parse_dumps ((dumps v).length + 1)).1 v [] (by omega) trivial
  rw [List.append_nil] at h
  rw [h]
  rfl


/-! ## Dict update lemmas (for metadata stamping) -/

theorem lookup_dictSet_self (kvs : List (String × Json)) (k : String) (v : Json) :
    (dictSet kvs k v).lookup k = some v := by
  induction kvs with
  | nil => simp [dictSet, List.lookup]
  | cons p rest ih =>
    obtain ⟨k1, v1⟩ := p
    by_cases h : k1 = k
    · subst h; simp [dictSet, List.lookup]
    · have hb : (k == k1) = false := by
        simp only [beq_eq_false_iff_ne, ne_eq]
        exact fun e => h e.symm
      simp [dictSet, h, List.lookup, hb, ih]

theorem lookup_dictSet_ne (kvs : List (String × Json)) (k k2 : String) (v : Json)
    (h : k2 ≠ k) : (dictSet kvs k v).lookup k2 = kvs.lookup k2 := by
  induction kvs with
  | nil =>
    have hb : (k2 == k) = false := by simp only [beq_eq_false_iff_ne, ne_eq]; exact h
    simp [dictSet, List.lookup, hb]
  | cons p rest ih =>
    obtain ⟨k1, v1⟩ := p
    by_cases h1 : k1 = k
    · subst h1
      have hb : (k2 == k1) = false := by simp only [beq_eq_false_iff_ne, ne_eq]; exact h
      simp [dictSet, List.lookup, hb]
    · by_cases h2 : k2 = k1
      · subst h2; simp [dictSet, h1, List.lookup]
      · have hb : (k2 == k1) = false := by simp only [beq_eq_false_iff_ne, ne_eq]; exact h2
        simp [dictSet, h1, List.lookup, hb, ih]

/-! ## Claim C3: successful connected send leaves the queue untouched -/

/-- C3: for every topic and payload, if the cloud link is connected when
`_send_to_cloud` is called and the publish returns `MQTT_ERR_SUCCESS`,
the durable offline queue is left unchanged (the record is not enqueued)
and the call returns `True`. -/
theorem connected_ok_send_leaves_queue (st : SyncState) (topic : String)
    (payload : Json) (now : Nat) (h : st.cloud_connected = true) :
    (send_to_cloud st .ok topic payload now).1 = true ∧
    (send_to_cloud st .ok topic payload now).2.1.queue = st.queue := by
  simp [send_to_cloud, h]

/-- Witness for C3 at a concrete connected state. -/
theorem connected_ok_send_leaves_queue_witness :
    ({ cloud_connected := true : SyncState }).cloud_connected = true ∧
    ((send_to_cloud { cloud_connected := true } .ok "agrisense/sensors/data" .null 0).1 = true ∧
     (send_to_cloud { cloud_connected := true } .ok "agrisense/sensors/data" .null 0).2.1.queue =
       ({ cloud_connected := true : SyncState }).queue) :=
  ⟨rfl, connected_ok_send_leaves_queue { cloud_connected := true }
    "agrisense/sensors/data" .null 0 rfl⟩

/-! ## Claim C4: every failure outcome queues the record exactly once -/

/-- C4: if the cloud link is not connected, `_send_to_cloud` returns
failure without attempting any publish (third component `false`); and on
every failure outcome — not connected, error return code, or exception —
the record `{'topic': topic, 'payload': payload}` is appended to the
durable queue exactly once and the call returns `False`. -/
theorem send_failure_queues_exactly_once (st : SyncState) (out : PubOutcome)
    (topic : String) (payload : Json) (now : Nat) :
    (st.cloud_connected = false →
       (send_to_cloud st out topic payload now).1 = false ∧
       (send_to_cloud st out topic payload now).2.2 = false ∧
       (send_to_cloud st out topic payload now).2.1.queue.rows =
         st.queue.rows ++
           [⟨st.queue.nextId, dumps (queuedRecord topic payload), now, "pending"⟩]) ∧
    (st.cloud_connected = true → out ≠ .ok →
       (send_to_cloud st out topic payload now).1 = false ∧
       (send_to_cloud st out topic payload now).2.2 = true ∧
       (send_to_cloud st out topic payload now).2.1.queue.rows =
         st.queue.rows ++
           [⟨st.queue.nextId, dumps (queuedRecord topic payload), now, "pending"⟩]) := by
  constructor
  · intro h
    simp [send_to_cloud, h, OfflineQueue.enqueue]
  · intro h hout
    cases out with
    | ok => exact absurd rfl hout
    | err => simp [send_to_cloud, h, OfflineQueue.enqueue]
    | exn => simp [send_to_cloud, h, OfflineQueue.enqueue]

/-- Witness for C4: the disconnected case and the error-code case at
concrete states. -/
theorem send_failure_queues_exactly_once_witness :
    (({ } : SyncState).cloud_connected = false →
       (send_to_cloud { } .err "t" .null 3).1 = false ∧
       (send_to_cloud { } .err "t" .null 3).2.2 = false ∧
       (send_to_cloud { } .err "t" .null 3).2.1.queue.rows =
         ({ } : SyncState).queue.rows ++
           [⟨({ } : SyncState).queue.nextId, dumps (queuedRecord "t" .null), 3, "pending"⟩]) ∧
    (({ } : SyncState).cloud_connected = true → PubOutcome.err ≠ .ok →
       (send_to_cloud { } .err "t" .null 3).1 = false ∧
       (send_to_cloud { } .err "t" .null 3).2.2 = true ∧
       (send_to_cloud { } .err "t" .null 3).2.1.queue.rows =
         ({ } : SyncState).queue.rows ++
           [⟨({ } : SyncState).queue.nextId, dumps (queuedRecord "t" .null), 3, "pending"⟩]) :=
  send_failure_queues_exactly_once { } .err "t" .null 3

/-! ## Claim C7: decode failure drops the message with no state change -/

/-- C7: an inbound local message whose payload fails to decode as JSON is
dropped unchanged: the handler returns the original state (durable queue,
batch buffer and statistics included) and the only effect is the logged
drop (`droppedDecode`) — no send is attempted. -/
theorem decode_failure_drops_message (cfg : Config) (st : SyncState)
    (topic : String) (raw : List Char) (now : Nat) (out : PubOutcome)
    (h : loads raw = none) :
    handle_local_message cfg st topic raw now out = (st, .droppedDecode) := by
  simp [handle_local_message, h]

/-- Witness for C7 at the malformed input `"\x7b"` (an unclosed brace). -/
theorem decode_failure_drops_message_witness :
    loads ['\x7b'] = none ∧
    handle_local_message { } { } "agrisense/sensors/data" ['\x7b'] 5 .ok =
      ({ }, .droppedDecode) :=
  ⟨rfl, decode_failure_drops_message { } { } "agrisense/sensors/data" ['\x7b'] 5 .ok rfl⟩

/-- `_send_to_cloud` never touches the in-memory batch buffer. -/
theorem send_to_cloud_batch_buffer (st : SyncState) (out : PubOutcome)
    (topic : String) (payload : Json) (now : Nat) :
    (send_to_cloud st out topic payload now).2.1.batch_buffer = st.batch_buffer := by
  rw [send_to_cloud.eq_def]
  split
  · rfl
  · cases out <;> rfl

/-! ## Claim C6: alarms bypass batching in every mode -/

/-- C6: a decoded message on the alarm topic is, in realtime and batched
mode alike, forwarded immediately through the realtime send path to the
cloud alarms topic, and the in-memory batch buffer is left untouched (so
the alarm can never appear inside a flushed batch record). -/
theorem alarm_bypasses_batching (cfg : Config) (st : SyncState)
    (raw : List Char) (now : Nat) (out : PubOutcome) (kvs : List (String × Json))
    (h : loads raw = some (.obj kvs)) :
    (handle_local_message cfg st "agrisense/alarms" raw now out).2 =
      .sentNow cfg.CLOUD_ALARMS_TOPIC (.obj (stampMeta cfg now kvs)) ∧
    (handle_local_message cfg st "agrisense/alarms" raw now out).1.batch_buffer =
      st.batch_buffer := by
  constructor
  · simp [handle_local_message, h]
  · simp only [handle_local_message, h]
    rw [if_pos trivial, send_to_cloud_batch_buffer]

/-- Witness for C6: a concrete alarm in batched mode with the cloud
offline. -/
theorem alarm_bypasses_batching_witness :
    loads (dumps (Json.obj [])) = some (.obj []) ∧
    ((handle_local_message { REALTIME_MODE := false } { } "agrisense/alarms"
        (dumps (Json.obj [])) 7 .ok).2 =
      .sentNow ({ REALTIME_MODE := false : Config }).CLOUD_ALARMS_TOPIC
        (.obj (stampMeta { REALTIME_MODE := false } 7 [])) ∧
     (handle_local_message { REALTIME_MODE := false } { } "agrisense/alarms"
        (dumps (Json.obj [])) 7 .ok).1.batch_buffer =
      ({ } : SyncState).batch_buffer) :=
  ⟨rfl, alarm_bypasses_batching { REALTIME_MODE := false } { } (dumps (Json.obj []))
    7 .ok [] rfl⟩


/-! ## Claim C10: metadata fields are set, all other fields preserved -/

/-- C10: for every successfully decoded local message — alarm or data
topic — the handler stamps `edge_id`, `edge_name`, `edge_location` and
`received_at` with the relay's configured identity and the receipt time,
overwriting homonymous fields of the incoming payload, leaves every other
field unchanged, and passes exactly the stamped payload onward
(immediate send on the alarm topic or in realtime mode, batch append in
batched mode). -/
theorem metadata_stamped_before_dispatch (cfg : Config) (st : SyncState)
    (topic : String) (raw : List Char) (now : Nat) (out : PubOutcome)
    (kvs : List (String × Json)) (h : loads raw = some (.obj kvs)) :
    ((stampMeta cfg now kvs).lookup "edge_id" = some (.str cfg.EDGE_ID) ∧
     (stampMeta cfg now kvs).lookup "edge_name" = some (.str cfg.EDGE_NAME) ∧
     (stampMeta cfg now kvs).lookup "edge_location" = some (.str cfg.EDGE_LOCATION) ∧
     (stampMeta cfg now kvs).lookup "received_at" = some (.num now)) ∧
    (∀ k2 : String, k2 ≠ "edge_id" → k2 ≠ "edge_name" → k2 ≠ "edge_location" →
       k2 ≠ "received_at" →
       (stampMeta cfg now kvs).lookup k2 = kvs.lookup k2) ∧
    ((handle_local_message cfg st "agrisense/alarms" raw now out).2 =
       .sentNow cfg.CLOUD_ALARMS_TOPIC (.obj (stampMeta cfg now kvs))) ∧
    (topic ≠ "agrisense/alarms" → cfg.REALTIME_MODE = true →
       (handle_local_message cfg st topic raw now out).2 =
         .sentNow cfg.CLOUD_TOPIC (.obj (stampMeta cfg now kvs))) ∧
    (topic ≠ "agrisense/alarms" → cfg.REALTIME_MODE = false →
       (handle_local_message cfg st topic raw now out).2 =
         .buffered (.obj (stampMeta cfg now kvs)) ∧
       (handle_local_message cfg st topic raw now out).1.batch_buffer =
         st.batch_buffer ++ [.obj (stampMeta cfg now kvs)]) := by
  refine ⟨⟨?_, ?_, ?_, ?_⟩, ?_, ?_, ?_, ?_⟩
  · rw [stampMeta, lookup_dictSet_ne _ _ _ _ (by decide),
      lookup_dictSet_ne _ _ _ _ (by decide), lookup_dictSet_ne _ _ _ _ (by decide),
      lookup_dictSet_self]
  · rw [stampMeta, lookup_dictSet_ne _ _ _ _ (by decide),
      lookup_dictSet_ne _ _ _ _ (by decide), lookup_dictSet_self]
  · rw [stampMeta, lookup_dictSet_ne _ _ _ _ (by decide), lookup_dictSet_self]
  · rw [stampMeta, lookup_dictSet_self]
  · intro k2 h1 h2 h3 h4
    rw [stampMeta, lookup_dictSet_ne _ _ _ _ h4, lookup_dictSet_ne _ _ _ _ h3,
      lookup_dictSet_ne _ _ _ _ h2, lookup_dictSet_ne _ _ _ _ h1]
  · simp [handle_local_message, h]
  · intro ht hm
    simp [handle_local_message, h, ht, hm]
  · intro ht hm
    constructor
    · simp [handle_local_message, h, ht, hm]
    · simp [handle_local_message, h, ht, hm]

/-- Witness for C10 at a concrete payload carrying a stale `edge_id` and
a sensor field, in batched mode. -/
theorem metadata_stamped_before_dispatch_witness :
    loads (dumps (Json.obj [("edge_id", .str "stale"), ("temperature", .num 21)])) =
      some (.obj [("edge_id", .str "stale"), ("temperature", .num 21)]) ∧
    (stampMeta { } 9 [("edge_id", .str "stale"), ("temperature", .num 21)]).lookup
        "edge_id" = some (.str ({ } : Config).EDGE_ID) ∧
    (stampMeta { } 9 [("edge_id", .str "stale"), ("temperature", .num 21)]).lookup
        "temperature" = some (.num 21) ∧
    (handle_local_message { REALTIME_MODE := false } { } "agrisense/sensors/data"
        (dumps (Json.obj [("edge_id", .str "stale"), ("temperature", .num 21)])) 9 .ok).2 =
      .buffered (.obj (stampMeta { REALTIME_MODE := false } 9
        [("edge_id", .str "stale"), ("temperature", .num 21)])) := by
  have h := metadata_stamped_before_dispatch { REALTIME_MODE := false } { }
    "agrisense/sensors/data"
    (dumps (Json.obj [("edge_id", .str "stale"), ("temperature", .num 21)])) 9 .ok
    [("edge_id", .str "stale"), ("temperature", .num 21)]
    (loads_dumps (Json.obj [("edge_id", .str "stale"), ("temperature", .num 21)]))
  refine ⟨loads_dumps _, ?_, ?_, ?_⟩
  · exact h.1.1
  · exact (metadata_stamped_before_dispatch { } { } "agrisense/sensors/data"
      (dumps (Json.obj [("edge_id", .str "stale"), ("temperature", .num 21)])) 9 .ok
      [("edge_id", .str "stale"), ("temperature", .num 21)]
      (loads_dumps _)).2.1 "temperature" (by decide) (by decide) (by decide) (by decide)
  · exact ((h.2.2.2.2) (by decide) rfl).1

/-! ## Claim C9 (corrected): command forwarding requires the local link -/

/-- C9 counterexample: a decoded command received while the local link is
down is NOT forwarded (`_handle_cloud_message` publishes nothing), so the
claim "forwarded ... regardless of other state" fails at this input. -/
theorem command_not_forwarded_when_local_down :
    loads (dumps (Json.obj [("cmd", .str "irrigate")])) =
      some (.obj [("cmd", .str "irrigate")]) ∧
    handle_cloud_message { local_connected := false }
      (dumps (Json.obj [("cmd", .str "irrigate")])) = none := by
  constructor
  · exact loads_dumps _
  · rw [handle_cloud_message, loads_dumps]
    rfl

/-- C9 amended: every command message that decodes is, provided the local
link is connected, forwarded to the local `agrisense/commands` topic as
the re-serialisation of the decoded record — equal to the received
payload as a structured record (no transformation of content); when the
local link is down the command is dropped. -/
theorem command_forwarded_verbatim_when_local_up (st : SyncState)
    (raw : List Char) (j : Json) (hl : st.local_connected = true)
    (hj : loads raw = some j) :
    handle_cloud_message st raw = some ("agrisense/commands", dumps j) ∧
    (jwf j = true → loads (dumps j) = some j) := by
  constructor
  · rw [handle_cloud_message, hj, hl]
    rfl
  · intro _
    exact loads_dumps j

/-- Witness for amended C9 at a concrete connected state and command. -/
theorem command_forwarded_verbatim_when_local_up_witness :
    ({ local_connected := true : SyncState }).local_connected = true ∧
    loads (dumps (Json.obj [("cmd", .str "irrigate")])) =
      some (.obj [("cmd", .str "irrigate")]) ∧
    (handle_cloud_message { local_connected := true }
        (dumps (Json.obj [("cmd", .str "irrigate")])) =
      some ("agrisense/commands", dumps (Json.obj [("cmd", .str "irrigate")])) ∧
     (jwf (Json.obj [("cmd", .str "irrigate")]) = true →
       loads (dumps (Json.obj [("cmd", .str "irrigate")])) =
         some (.obj [("cmd", .str "irrigate")]))) :=
  ⟨rfl, loads_dumps _,
   command_forwarded_verbatim_when_local_up { local_connected := true } _ _ rfl
     (loads_dumps _)⟩


/-! ## Claim C5: batch flush trigger, atomic take, scenarios -/

/-- The Config used by the C5 scenarios: batched mode, size 3,
timeout 30. -/
def batchCfg : Config := { REALTIME_MODE := false, BATCH_SIZE := 3, BATCH_TIMEOUT := 30 }

set_option maxRecDepth 8000 in
/-- C5: with a positive configured size threshold, a polling tick of
`_batch_sender_loop` flushes exactly when the buffer has reached the
size threshold or is non-empty with the timeout elapsed since the last
flush; a flush atomically takes and clears the whole buffer and forwards
one batch record containing exactly the buffered readings in arrival
order.  Scenario 1: three quick records at size 3 yield exactly one
flush of size 3.  Scenario 2: two records followed by 31 ticks of
inactivity at timeout 30 yield exactly one flush of size 2. -/
theorem batch_flush_trigger (cfg : Config) (hsize : 1 ≤ cfg.BATCH_SIZE)
    (st : BatchState) :
    ((cfg.BATCH_SIZE ≤ st.buffer.length ∨
        (st.buffer ≠ [] ∧ cfg.BATCH_TIMEOUT ≤ st.now + 1 - st.lastBatch)) →
       stepB cfg st .tick =
         (⟨[], st.now + 1, st.now + 1⟩,
          some (batchPayload cfg (st.now + 1) st.buffer))) ∧
    (¬(cfg.BATCH_SIZE ≤ st.buffer.length ∨
        (st.buffer ≠ [] ∧ cfg.BATCH_TIMEOUT ≤ st.now + 1 - st.lastBatch)) →
       stepB cfg st .tick = ({ st with now := st.now + 1 }, none)) ∧
    (∀ a b c : Json,
       (runB batchCfg { } [.arrive a, .arrive b, .arrive c, .tick, .tick, .tick]).2 =
         [batchPayload batchCfg 1 [a, b, c]]) ∧
    (∀ a b : Json,
       (runB batchCfg { } ([.arrive a, .arrive b] ++ List.replicate 31 .tick)).2 =
         [batchPayload batchCfg 30 [a, b]]) := by
  refine ⟨?_, ?_, ?_, ?_⟩
  · intro hc
    have hne : st.buffer ≠ [] := by
      rcases hc with h1 | h2
      · intro e
        rw [e] at h1
        simp at h1
        omega
      · exact h2.1
    have hpos : 0 < st.buffer.length := List.length_pos.mpr hne
    have hss : shouldSend cfg { st with now := st.now + 1 } = true := by
      rw [shouldSend]
      rcases hc with h1 | h2
      · rw [if_pos h1]
      · by_cases h1 : cfg.BATCH_SIZE ≤ st.buffer.length
        · rw [if_pos h1]
        · rw [if_neg h1, if_pos hpos, decide_eq_true_eq]
          exact h2.2
    rw [stepB, if_pos hss, send_batch.eq_def]
    cases hb : st.buffer with
    | nil => exact absurd hb hne
    | cons x xs => rfl
  · intro hc
    push_neg at hc
    obtain ⟨h1, h2⟩ := hc
    have hss : shouldSend cfg { st with now := st.now + 1 } = false := by
      rw [shouldSend]
      dsimp only
      rw [if_neg (by omega)]
      by_cases hp : 0 < st.buffer.length
      · rw [if_pos hp, decide_eq_false_iff_not]
        have := h2 (List.length_pos.mp hp)
        omega
      · rw [if_neg hp]
    rw [stepB]
    rw [if_neg (by rw [hss]; exact Bool.false_ne_true)]
  · intro a b c
    simp [runB, stepB, shouldSend, send_batch, batchCfg, batchPayload]
  · intro a b
    simp [runB, stepB, shouldSend, send_batch, batchCfg, batchPayload,
      List.replicate_succ]

/-- Witness for C5 at a concrete full-buffer state. -/
theorem batch_flush_trigger_witness :
    1 ≤ batchCfg.BATCH_SIZE ∧
    ((batchCfg.BATCH_SIZE ≤ ([Json.null, Json.null, Json.null] : List Json).length ∨
       (([Json.null, Json.null, Json.null] : List Json) ≠ [] ∧
        batchCfg.BATCH_TIMEOUT ≤ 0 + 1 - 0)) →
      stepB batchCfg ⟨[Json.null, Json.null, Json.null], 0, 0⟩ .tick =
        (⟨[], 0 + 1, 0 + 1⟩,
         some (batchPayload batchCfg (0 + 1) [Json.null, Json.null, Json.null]))) :=
  ⟨by decide,
   (batch_flush_trigger batchCfg (by decide)
     ⟨[Json.null, Json.null, Json.null], 0, 0⟩).1⟩


/-! ## Drain-loop lemmas -/

/-- A `{'topic': t, 'payload': p}` record drains to topic `t` with
payload `p`. -/
theorem entryDest_queuedRecord (cfg : Config) (t : String) (p : Json) :
    entryDest cfg (queuedRecord t p) = some (t, p) := by
  have h1 : ("topic" == "topic") = true := by decide
  have h2 : ("payload" == "topic") = false := by decide
  have h3 : ("payload" == "payload") = true := by decide
  simp only [entryDest, queuedRecord, List.lookup, h1, h2, h3]

/-- When every publish of the cycle succeeds, the drain loop attempts the
fetched entries in fetched (FIFO) order and collects exactly their ids. -/
theorem drainLoop_all_ok (cfg : Config) (items : List (Nat × Json)) (k : Nat)
    (h : ∀ p ∈ items, (entryDest cfg p.2).isSome = true) :
    (drainLoop cfg (fun _ => .ok) items k).1.map (fun a => a.1) =
      items.map Prod.fst ∧
    (drainLoop cfg (fun _ => .ok) items k).2 = items.map Prod.fst := by
  induction items generalizing k with
  | nil => exact ⟨rfl, rfl⟩
  | cons p rest ih =>
    obtain ⟨i, d⟩ := p
    have hd : (entryDest cfg d).isSome = true := h (i, d) (by simp)
    obtain ⟨⟨t, pl⟩, he⟩ := Option.isSome_iff_exists.mp hd
    have := ih (k + 1) (fun q hq => h q (by simp [hq]))
    rw [drainLoop, he]
    simp only [List.map_cons]
    exact ⟨by simp [this.1], by simp [this.2]⟩

/-- Safety: every id the drain loop collects for deletion belongs to a
fetched entry whose publish at its position returned success — no
unconfirmed entry is ever deleted. -/
theorem drainLoop_sent_confirmed (cfg : Config) (out : Nat → PubOutcome)
    (items : List (Nat × Json)) (k : Nat) (i : Nat)
    (hi : i ∈ (drainLoop cfg out items k).2) :
    ∃ j, ∃ hj : j < items.length, (items.get ⟨j, hj⟩).1 = i ∧ out (k + j) = .ok := by
  induction items generalizing k with
  | nil => simp [drainLoop] at hi
  | cons p rest ih =>
    obtain ⟨i1, d⟩ := p
    rw [drainLoop] at hi
    cases he : entryDest cfg d with
    | none => rw [he] at hi; simp at hi
    | some tp =>
      obtain ⟨t, pl⟩ := tp
      rw [he] at hi
      cases ho : out k with
      | exn => rw [ho] at hi; simp at hi
      | ok =>
        rw [ho] at hi
        simp only at hi
        rcases List.mem_cons.mp hi with rfl | hi2
        · exact ⟨0, by simp, by simp, by simpa using ho⟩
        · obtain ⟨j, hj, hid, hout⟩ := ih (k + 1) hi2
          exact ⟨j + 1, by simpa using hj, by simpa using hid,
            by rw [show k + (j + 1) = k + 1 + j from by omega]; exact hout⟩
      | err =>
        rw [ho] at hi
        simp only at hi
        obtain ⟨j, hj, hid, hout⟩ := ih (k + 1) hi
        exact ⟨j + 1, by simpa using hj, by simpa using hid,
          by rw [show k + (j + 1) = k + 1 + j from by omega]; exact hout⟩

/-- `mark_sent` deletes exactly the listed ids. -/
theorem mark_sent_mem (st : QState) (ids : List Nat) (r : Row) :
    r ∈ (OfflineQueue.mark_sent st ids).rows ↔ r ∈ st.rows ∧ r.id ∉ ids := by
  simp [OfflineQueue.mark_sent, List.mem_filter]

/-! ## Claim C1 (corrected): the drain cycle and its stop condition -/

/-- The queue state backing the C1 scenario: three pending entries with
ids 1, 2, 3. -/
def rows123 : QState :=
  { nextId := 4,
    rows := [⟨1, dumps (queuedRecord "agrisense/sensors/data" (.num 1)), 10, "pending"⟩,
             ⟨2, dumps (queuedRecord "agrisense/sensors/data" (.num 2)), 11, "pending"⟩,
             ⟨3, dumps (queuedRecord "agrisense/sensors/data" (.num 3)), 12, "pending"⟩] }

/-- The fetched entries of the C1 scenario. -/
def items123 : List (Nat × Json) :=
  [(1, queuedRecord "agrisense/sensors/data" (.num 1)),
   (2, queuedRecord "agrisense/sensors/data" (.num 2)),
   (3, queuedRecord "agrisense/sensors/data" (.num 3))]

/-- Publish outcomes where the second send of the cycle fails with an
error return code and all others succeed. -/
def errAt2 : Nat → PubOutcome := fun k => if k = 1 then .err else .ok

/-- C1 counterexample: with entries 1,2,3 and entry 2's publish failing
with a non-success return code, the cycle does NOT stop: entry 3 is also
attempted (three publish attempts), ids 1 and 3 are collected and
deleted, and only entry 2 remains pending — contradicting the claim that
entry 3 is not attempted and that entries 2 and 3 remain. -/
theorem drain_errcode_counterexample :
    (drainLoop { } errAt2 items123 0).1.map (fun a => a.1) = [1, 2, 3] ∧
    (drainLoop { } errAt2 items123 0).2 = [1, 3] ∧
    (OfflineQueue.mark_sent rows123 (drainLoop { } errAt2 items123 0).2).rows.map
        (fun r => r.id) = [2] := by
  refine ⟨rfl, rfl, rfl⟩

/-- Outcomes where the second send of the cycle raises and all others
succeed. -/
def exnAt2 : Nat → PubOutcome := fun k => if k = 1 then .exn else .ok

/-- C1 (amended): entries fetched in FIFO order are sent sequentially;
the cycle stops early exactly at the first publish that raises an
exception, while a publish returning an error code leaves its entry
pending and the cycle continues with the next entry; in every case
exactly the entries whose sends were confirmed are deleted and no
unconfirmed entry is ever deleted.  For entries 1,2,3: if entry 2's
publish raises, entry 3 is not attempted and entries 2 and 3 remain
pending; if entry 2's publish merely returns an error code, entry 3 is
attempted and delivered, and only entry 2 remains pending. -/
theorem drain_stop_on_exception (i1 i2 i3 : Nat) (t1 t2 t3 : String)
    (p1 p2 p3 : Json) (cfg : Config) :
    ((drainLoop cfg exnAt2
        [(i1, queuedRecord t1 p1), (i2, queuedRecord t2 p2), (i3, queuedRecord t3 p3)]
        0).1.map (fun a => a.1) = [i1, i2] ∧
     (drainLoop cfg exnAt2
        [(i1, queuedRecord t1 p1), (i2, queuedRecord t2 p2), (i3, queuedRecord t3 p3)]
        0).2 = [i1]) ∧
    ((drainLoop cfg errAt2
        [(i1, queuedRecord t1 p1), (i2, queuedRecord t2 p2), (i3, queuedRecord t3 p3)]
        0).1.map (fun a => a.1) = [i1, i2, i3] ∧
     (drainLoop cfg errAt2
        [(i1, queuedRecord t1 p1), (i2, queuedRecord t2 p2), (i3, queuedRecord t3 p3)]
        0).2 = [i1, i3]) ∧
    (∀ (out : Nat → PubOutcome) (items : List (Nat × Json)) (k i : Nat),
       i ∈ (drainLoop cfg out items k).2 →
       ∃ j, ∃ hj : j < items.length, (items.get ⟨j, hj⟩).1 = i ∧ out (k + j) = .ok) ∧
    (∀ (st : QState) (ids : List Nat) (r : Row),
       r ∈ (OfflineQueue.mark_sent st ids).rows ↔ r ∈ st.rows ∧ r.id ∉ ids) := by
  refine ⟨?_, ?_, ?_, ?_⟩
  · constructor <;>
      simp +decide [drainLoop, entryDest_queuedRecord, exnAt2]
  · constructor <;>
      simp +decide [drainLoop, entryDest_queuedRecord, errAt2]
  · exact fun out items k i hi => drainLoop_sent_confirmed cfg out items k i hi
  · exact fun st ids r => mark_sent_mem st ids r

/-- Witness for amended C1 at the concrete scenario entries. -/
theorem drain_stop_on_exception_witness :
    ((drainLoop { } exnAt2 items123 0).1.map (fun a => a.1) = [1, 2] ∧
     (drainLoop { } exnAt2 items123 0).2 = [1]) ∧
    ((drainLoop { } errAt2 items123 0).1.map (fun a => a.1) = [1, 2, 3] ∧
     (drainLoop { } errAt2 items123 0).2 = [1, 3]) :=
  ⟨(drain_stop_on_exception 1 2 3 "agrisense/sensors/data" "agrisense/sensors/data"
      "agrisense/sensors/data" (.num 1) (.num 2) (.num 3) { }).1,
   (drain_stop_on_exception 1 2 3 "agrisense/sensors/data" "agrisense/sensors/data"
      "agrisense/sensors/data" (.num 1) (.num 2) (.num 3) { }).2.1⟩


/-! ## `parseRows` lemmas -/

theorem parseRows_exists (rs : List Row)
    (h : ∀ r ∈ rs, (loads r.data).isSome = true) :
    ∃ l, parseRows rs = some l := by
  induction rs with
  | nil => exact ⟨[], rfl⟩
  | cons r rest ih =>
    obtain ⟨j, hj⟩ := Option.isSome_iff_exists.mp (h r (by simp))
    obtain ⟨l, hl⟩ := ih (fun q hq => h q (by simp [hq]))
    exact ⟨(r.id, j) :: l, by rw [parseRows, hj, hl]⟩

theorem parseRows_map_fst (rs : List Row) (l : List (Nat × Json))
    (h : parseRows rs = some l) : l.map Prod.fst = rs.map Row.id := by
  induction rs generalizing l with
  | nil =>
    rw [parseRows] at h
    cases h
    rfl
  | cons r rest ih =>
    rw [parseRows] at h
    cases h1 : loads r.data with
    | none => rw [h1] at h; cases h
    | some j =>
      cases h2 : parseRows rest with
      | none => rw [h1, h2] at h; cases h
      | some l2 =>
        rw [h1, h2] at h
        cases h
        simp [ih l2 h2]

theorem parseRows_mem (rs : List Row) (l : List (Nat × Json)) (r : Row) (j : Json)
    (h : parseRows rs = some l) (hr : r ∈ rs) (hj : loads r.data = some j) :
    (r.id, j) ∈ l := by
  induction rs generalizing l with
  | nil => simp at hr
  | cons r1 rest ih =>
    rw [parseRows] at h
    cases h1 : loads r1.data with
    | none => rw [h1] at h; cases h
    | some j1 =>
      cases h2 : parseRows rest with
      | none => rw [h1, h2] at h; cases h
      | some l2 =>
        rw [h1, h2] at h
        cases h
        rcases List.mem_cons.mp hr with rfl | hmem
        · rw [hj] at h1
          cases h1
          exact List.mem_cons_self _ _
        · exact List.mem_cons_of_mem _ (ih l2 h2 hmem)

/-! ## Sorted-permutation uniqueness (distinct keys) -/

/-- Total order instance for the `created_at` comparison used by the
model of `ORDER BY`. -/
instance : IsTotal Row (fun a b => a.created_at ≤ b.created_at) :=
  ⟨fun a b => Nat.le_total a.created_at b.created_at⟩

/-- Transitivity instance for the `created_at` comparison. -/
instance : IsTrans Row (fun a b => a.created_at ≤ b.created_at) :=
  ⟨fun _ _ _ h1 h2 => Nat.le_trans h1 h2⟩

/-- Two permutations of the same rows, both sorted by `created_at`, are
equal when the timestamps are pairwise distinct: with no ties the sort
order is unique, so the store's tie freedom vanishes. -/
theorem sorted_perm_eq_of_distinct (l1 l2 : List Row)
    (hperm : l1.Perm l2)
    (h1 : l1.Pairwise (fun a b => a.created_at ≤ b.created_at))
    (h2 : l2.Pairwise (fun a b => a.created_at ≤ b.created_at))
    (hd : l2.Pairwise (fun a b => a.created_at ≠ b.created_at)) :
    l1 = l2 := by
  induction l2 generalizing l1 with
  | nil => exact hperm.eq_nil
  | cons b t2 ih =>
    cases l1 with
    | nil => exact absurd hperm.symm.eq_nil (by simp)
    | cons a t1 =>
      obtain ⟨hb2, ht2sorted⟩ := List.pairwise_cons.mp h2
      obtain ⟨ha1, ht1sorted⟩ := List.pairwise_cons.mp h1
      obtain ⟨hbne, ht2ne⟩ := List.pairwise_cons.mp hd
      have hab : a = b := by
        by_contra hne
        have haMem : a ∈ b :: t2 := hperm.subset (List.mem_cons_self a t1)
        have haT2 : a ∈ t2 := by
          rcases List.mem_cons.mp haMem with h | h
          · exact absurd h hne
          · exact h
        have hbMem : b ∈ a :: t1 := hperm.symm.subset (List.mem_cons_self b t2)
        have hbT1 : b ∈ t1 := by
          rcases List.mem_cons.mp hbMem with h | h
          · exact absurd h.symm hne
          · exact h
        have h1' : a.created_at ≤ b.created_at := ha1 b hbT1
        have h2' : b.created_at ≤ a.created_at := hb2 a haT2
        exact hbne a haT2 (Nat.le_antisymm h2' h1')
      subst hab
      rw [ih t1 (hperm.cons_inv) ht1sorted ht2sorted ht2ne]

/-! ## Claim C2 (corrected): `get_pending` order and same-second ties -/

/-- A row enqueued at clock second 10. -/
def tieRowA : Row := ⟨1, dumps Json.null, 10, "pending"⟩

/-- A second row enqueued within the same clock second as `tieRowA`, so
its `created_at` compares equal. -/
def tieRowB : Row := ⟨2, dumps Json.null, 10, "pending"⟩

/-- A queue holding two pending entries enqueued within one second. -/
def tieState : QState := ⟨3, [tieRowA, tieRowB]⟩

/-- C2 counterexample: entries 1 and 2 were enqueued within the same
clock second, so their `created_at` keys are equal and SQLite may return
them in either order under `ORDER BY created_at`; the admissible delivery
order putting the newer row first makes `get_pending` return ids [2, 1] —
not ascending id order, refuting the claimed FIFO guarantee "for every
state of the durable queue". -/
theorem get_pending_tie_counterexample :
    ScanOf tieState [tieRowB, tieRowA] ∧
    OfflineQueue.get_pending [tieRowB, tieRowA] 50 =
      some [(2, Json.null), (1, Json.null)] ∧
    ¬ (([(2, Json.null), (1, Json.null)].map Prod.fst).Pairwise
        (fun a b : Nat => a < b)) := by
  refine ⟨List.Perm.swap tieRowA tieRowB [], rfl, by decide⟩

/-- C2 (amended): for every queue state, every limit and every
admissible delivery order of the store, `get_pending` returns at most
`limit` pending entries in non-decreasing `created_at` (enqueue-time)
order; whenever the table's timestamps are strictly increasing in
insertion order (no two entries enqueued within the same clock second)
the result is additionally in strictly ascending id (FIFO) order, for
every admissible delivery order; `get_pending` is a read-only SELECT,
modelled as a pure function returning no modified state.  A drain cycle
whose publishes all succeed attempts exactly the fetched entries in
fetched order, so fetched ids 1,2,3 are sent in the order 1,2,3. -/
theorem get_pending_time_ordered (st : QState) (scan : List Row) (limit : Nat)
    (l : List (Nat × Json))
    (hscan : ScanOf st scan)
    (hl : OfflineQueue.get_pending scan limit = some l) :
    l.length ≤ limit ∧
    (selectPending scan limit).Pairwise
      (fun a b => a.created_at ≤ b.created_at) ∧
    (st.rows.Pairwise (fun a b => a.id < b.id ∧ a.created_at < b.created_at) →
       (l.map Prod.fst).Pairwise (fun a b => a < b)) ∧
    (∀ (cfg : Config) (items : List (Nat × Json)) (k : Nat),
       (∀ p ∈ items, (entryDest cfg p.2).isSome = true) →
       (drainLoop cfg (fun _ => .ok) items k).1.map (fun a => a.1) =
         items.map Prod.fst ∧
       (drainLoop cfg (fun _ => .ok) items k).2 = items.map Prod.fst) := by
  have hmap := parseRows_map_fst _ _ hl
  refine ⟨?_, ?_, ?_, ?_⟩
  · have hlen : l.length = (selectPending scan limit).length := by
      rw [← List.length_map l Prod.fst, hmap, List.length_map]
    rw [hlen, selectPending]
    exact List.length_take_le _ _
  · exact (List.sorted_insertionSort _ _).sublist (List.take_sublist _ _)
  · intro hp
    have hfil := hp.filter (fun r => r.status = "pending")
    have hscanF : (scan.filter (fun r => r.status = "pending")).Perm
        (st.rows.filter (fun r => r.status = "pending")) :=
      hscan.filter _
    have hLperm : ((scan.filter (fun r => r.status = "pending")).insertionSort
        (fun a b => a.created_at ≤ b.created_at)).Perm
        (st.rows.filter (fun r => r.status = "pending")) :=
      (List.perm_insertionSort _ _).trans hscanF
    have hLsorted := List.sorted_insertionSort
      (fun a b : Row => a.created_at ≤ b.created_at)
      (scan.filter (fun r => r.status = "pending"))
    have hFsorted : (st.rows.filter (fun r => r.status = "pending")).Pairwise
        (fun a b => a.created_at ≤ b.created_at) :=
      hfil.imp (fun h => Nat.le_of_lt h.2)
    have hFdist : (st.rows.filter (fun r => r.status = "pending")).Pairwise
        (fun a b => a.created_at ≠ b.created_at) :=
      hfil.imp (fun h => Nat.ne_of_lt h.2)
    have hEq := sorted_perm_eq_of_distinct _ _ hLperm hLsorted hFsorted hFdist
    have hsel : selectPending scan limit =
        (st.rows.filter (fun r => r.status = "pending")).take limit := by
      rw [selectPending, hEq]
    rw [hmap, hsel]
    have h1 : ((st.rows.filter (fun r => r.status = "pending")).take
        limit).Pairwise (fun a b : Row => a.id < b.id) :=
      (hfil.sublist (List.take_sublist _ _)).imp (fun h => h.1)
    exact (List.pairwise_map).mpr h1
  · exact fun cfg items k h => drainLoop_all_ok cfg items k h

/-- Witness for amended C2: the three-entry queue (timestamps 10, 11, 12
— all distinct), scanned in table order, fetched and drained. -/
theorem get_pending_time_ordered_witness :
    ScanOf rows123 rows123.rows ∧
    OfflineQueue.get_pending rows123.rows 50 = some items123 ∧
    items123.length ≤ 50 ∧
    (items123.map Prod.fst).Pairwise (fun a b => a < b) ∧
    (drainLoop { } (fun _ => .ok) items123 0).2 = items123.map Prod.fst := by
  have hscan : ScanOf rows123 rows123.rows := List.Perm.refl _
  have hl : OfflineQueue.get_pending rows123.rows 50 = some items123 := rfl
  have hp : rows123.rows.Pairwise
      (fun a b => a.id < b.id ∧ a.created_at < b.created_at) := by
    rw [rows123]
    refine List.Pairwise.cons ?_ (List.Pairwise.cons ?_ (List.pairwise_singleton _ _)) <;>
      (intro b hb; fin_cases hb <;> exact ⟨by decide, by decide⟩)
  have h := get_pending_time_ordered rows123 rows123.rows 50 items123 hscan hl
  exact ⟨hscan, hl, h.1, h.2.2.1 hp,
    (h.2.2.2 { } items123 0 (by decide)).2⟩

/-! ## Claim C8: enqueue then peek round-trips the payload -/

/-- C8: enqueuing a (well-formed) record into the durable queue and
reading it back through `get_pending` yields a payload equal
field-for-field to the record enqueued — the stored `json.dumps` text
decodes via `json.loads` to the identical value.  This holds for every
admissible delivery order of the store (the entry is found whatever
order equal-timestamp rows come back in). -/
theorem enqueue_roundtrip (st : QState) (v : Json) (now limit : Nat)
    (scan : List Row)
    (hw : jwf v = true)
    (hscan : ScanOf (OfflineQueue.enqueue st v now).2 scan)
    (hwf : ∀ r ∈ st.rows, (loads r.data).isSome = true)
    (hcount : (st.rows.filter (fun r => r.status = "pending")).length < limit) :
    ∃ l, OfflineQueue.get_pending scan limit = some l ∧ (st.nextId, v) ∈ l := by
  have hpermF : (scan.filter (fun r => r.status = "pending")).Perm
      ((st.rows ++ [Row.mk st.nextId (dumps v) now "pending"]).filter
        (fun r => r.status = "pending")) :=
    hscan.filter _
  have hfilApp : (st.rows ++ [Row.mk st.nextId (dumps v) now "pending"]).filter
        (fun r => r.status = "pending") =
      st.rows.filter (fun r => r.status = "pending") ++
        [Row.mk st.nextId (dumps v) now "pending"] := by
    rw [List.filter_append]
    simp
  have hlenF : (scan.filter (fun r => r.status = "pending")).length ≤ limit := by
    rw [hpermF.length_eq, hfilApp, List.length_append]
    simp only [List.length_singleton]
    omega
  have htake : selectPending scan limit =
      (scan.filter (fun r => r.status = "pending")).insertionSort
        (fun a b => a.created_at ≤ b.created_at) := by
    rw [selectPending]
    exact List.take_of_length_le (by rw [List.length_insertionSort]; exact hlenF)
  have hmemNew : Row.mk st.nextId (dumps v) now "pending" ∈
      (scan.filter (fun r => r.status = "pending")).insertionSort
        (fun a b => a.created_at ≤ b.created_at) := by
    rw [List.mem_insertionSort]
    exact hpermF.mem_iff.mpr (by rw [hfilApp]; exact List.mem_append_right _ (by simp))
  have hwfSel : ∀ r ∈ selectPending scan limit, (loads r.data).isSome = true := by
    intro r hr
    rw [htake, List.mem_insertionSort] at hr
    have hr2 : r ∈ st.rows.filter (fun r => r.status = "pending") ++
        [Row.mk st.nextId (dumps v) now "pending"] := by
      rw [← hfilApp]
      exact hpermF.subset hr
    rcases List.mem_append.mp hr2 with h1 | h1
    · exact hwf r (List.mem_of_mem_filter h1)
    · rcases List.mem_singleton.mp h1 with rfl
      rw [show (Row.mk st.nextId (dumps v) now "pending").data = dumps v from rfl,
        loads_dumps]
      rfl
  obtain ⟨l, hl⟩ := parseRows_exists _ hwfSel
  refine ⟨l, hl, ?_⟩
  exact parseRows_mem _ _ (Row.mk st.nextId (dumps v) now "pending") v hl
    (by rw [htake]; exact hmemNew) (loads_dumps v)

/-- Witness for C8: a fresh queue, a concrete two-field sensor record,
and the table scanned in insertion order. -/
theorem enqueue_roundtrip_witness :
    jwf (Json.obj [("node_id", .str "esp32-1"), ("temperature", .num 21)]) = true ∧
    (∃ l, OfflineQueue.get_pending
        (OfflineQueue.enqueue { }
          (Json.obj [("node_id", .str "esp32-1"), ("temperature", .num 21)]) 5).2.rows
        100 = some l ∧
      ((1 : Nat), Json.obj [("node_id", .str "esp32-1"), ("temperature", .num 21)]) ∈ l) :=
  ⟨by decide,
   enqueue_roundtrip { } (Json.obj [("node_id", .str "esp32-1"), ("temperature", .num 21)])
     5 100
     (OfflineQueue.enqueue { }
       (Json.obj [("node_id", .str "esp32-1"), ("temperature", .num 21)]) 5).2.rows
     (by decide) (List.Perm.refl _) (by simp) (by decide)⟩

end CloudSync
